import Mathlib

/-!
# devconnect: the post / comment / like routes

A shallow embedding of `routes/api/post.js`.  Every route handler becomes a
function from the request data and the database state to the response and the
next database state.  Values that the runtime supplies (the fresh `ObjectId`
of a new document, the clock) are passed in as an `Env`.

A lookup by a malformed identifier makes the driver throw a cast error.  Each
handler answers that exactly as it answers an absent document (404 in the two
handlers that test `error.kind`, 500 in the others), so lookups are modelled
as returning `Option`.
-/

namespace DevConnect

/-- The string form of a database identifier (`_id.toString()`, `req.user.id`,
`req.params.id`). -/
abbrev ObjectId := String

/-! ## Documents -/

/-- Modelled from the spec: the User schema (`models/User.js`), with the fields
that `routes/api/users.js` stores. -/
structure User where
  _id : ObjectId
  name : String
  email : String
  password : String
  avatar : String
  deriving DecidableEq, Repr

/-- Modelled from the spec: the like sub-document of the Post schema
(`models/Post.js`); `post.js` reads `l.user` and `l._id`. -/
structure Like where
  _id : ObjectId
  user : ObjectId
  deriving DecidableEq, Repr

/-- Modelled from the spec: the comment sub-document of the Post schema
(`models/Post.js`). -/
structure Comment where
  _id : ObjectId
  user : ObjectId
  text : String
  name : String
  avatar : String
  date : Nat
  deriving DecidableEq, Repr

/-- Modelled from the spec: the Post schema (`models/Post.js`). -/
structure Post where
  _id : ObjectId
  user : ObjectId
  text : String
  name : String
  avatar : String
  likes : List Like
  comments : List Comment
  date : Nat
  deriving DecidableEq, Repr

/-- The two collections the handlers touch. -/
structure Db where
  users : List User
  posts : List Post
  deriving DecidableEq, Repr

/-- What the runtime supplies to one request: the identifier given to the
document built by `new Post(...)` or to a pushed sub-document, and
`Date.now`. -/
structure Env where
  newId : ObjectId
  now : Nat
  deriving DecidableEq, Repr

/-! ## Responses -/

/-- Payload of a response: `res.send(string)`, `res.json(post)`,
`res.json(errors.array())`. -/
inductive Body where
  | text (s : String)
  | post (p : Post)
  | errors (msgs : List String)
  deriving DecidableEq, Repr

/-- Status code and payload. -/
structure Response where
  status : Nat
  body : Body
  deriving DecidableEq, Repr

/-- The call `res.send(s)` / `res.json(p)` without `res.status`. -/
def ok (b : Body) : Response := ⟨200, b⟩

/-- The shared `catch` branch: `res.status(500).send("Server Error")`. -/
def serverError : Response := ⟨500, Body.text "Server Error"⟩

/-! ## JavaScript array primitives -/

/-- The method `Array.prototype.indexOf`: first position of `x`, or `-1`. -/
def indexOf (xs : List String) (x : String) : Int :=
  match xs with
  | [] => -1
  | y :: ys =>
    if y = x then 0
    else
      let r := indexOf ys x
      if r < 0 then -1 else r + 1

/-- The method `Array.prototype.splice(start, deleteCount)` without inserted
items: a negative `start` counts from the end, and both arguments are clamped
to the array. -/
def splice {α : Type} (xs : List α) (start : Int) (deleteCount : Nat) : List α :=
  let len : Int := xs.length
  let actualStart : Nat :=
    if start < 0 then (max (len + start) 0).toNat else (min start len).toNat
  let actualDeleteCount : Nat := min deleteCount (xs.length - actualStart)
  xs.take actualStart ++ xs.drop (actualStart + actualDeleteCount)

/-! ## Collection operations -/

/-- The query `User.findOne({ _id: id })`. -/
def findOne (users : List User) (id : ObjectId) : Option User :=
  users.find? (fun u => u._id == id)

/-- The query `Post.findById(id)`. -/
def findById (posts : List Post) (id : ObjectId) : Option Post :=
  posts.find? (fun p => p._id == id)

/-- The first `save()` of a new document. -/
def insert (posts : List Post) (p : Post) : List Post :=
  posts ++ [p]

/-- The call `post.save()` on a loaded document: the stored document with
that `_id` is replaced. -/
def save (posts : List Post) (p : Post) : List Post :=
  match posts with
  | [] => []
  | q :: qs => if q._id = p._id then p :: qs else q :: save qs p

/-- The call `post.remove()`: the stored document with that `_id` is
deleted. -/
def remove (posts : List Post) (p : Post) : List Post :=
  match posts with
  | [] => []
  | q :: qs => if q._id = p._id then qs else q :: remove qs p

/-! ## Route handlers -/

/-- The validator `check("text", "Text is required").notEmpty()`. -/
def validationResult (text : String) : List String :=
  if text = "" then ["Text is required"] else []

/-- Handler `POST api/posts/`. -/
def createPost (env : Env) (db : Db) (callerId : ObjectId) (text : String) :
    Response × Db :=
  let errors := validationResult text
  if ¬ errors.isEmpty then (⟨400, Body.errors errors⟩, db)
  else
    match findOne db.users callerId with
    | none => (serverError, db)
    | some user =>
      let newPost : Post :=
        { _id := env.newId, user := user._id, text := text, name := user.name,
          avatar := user.avatar, likes := [], comments := [], date := env.now }
      (ok (Body.post newPost), { db with posts := insert db.posts newPost })

/-- Handler `GET api/posts/:id`. -/
def getPost (db : Db) (id : ObjectId) : Response × Db :=
  match findById db.posts id with
  | none => (⟨404, Body.text "Post not found"⟩, db)
  | some post => (ok (Body.post post), db)

/-- Handler `DELETE api/posts/:id`. -/
def deletePost (db : Db) (callerId : ObjectId) (id : ObjectId) : Response × Db :=
  match findById db.posts id with
  | none => (⟨404, Body.text "Post not found"⟩, db)
  | some post =>
    if post.user ≠ callerId then (⟨401, Body.text "Not authorized"⟩, db)
    else (ok (Body.text "Post removed"), { db with posts := remove db.posts post })

/-- Handler `POST api/posts/comment/:id`.  Reading `user.name` of a missing
user, or `post.comments` of a missing post, throws inside the `try`. -/
def addComment (env : Env) (db : Db) (callerId : ObjectId) (id : ObjectId)
    (text : String) : Response × Db :=
  let errors := validationResult text
  if ¬ errors.isEmpty then (⟨400, Body.errors errors⟩, db)
  else
    match findOne db.users callerId with
    | none => (serverError, db)
    | some user =>
      match findById db.posts id with
      | none => (serverError, db)
      | some post =>
        let newComment : Comment :=
          { _id := env.newId, user := user._id, text := text, name := user.name,
            avatar := user.avatar, date := env.now }
        let post := { post with comments := newComment :: post.comments }
        (ok (Body.post post), { db with posts := save db.posts post })

/-- Handler `DELETE api/posts/comment/:post_id/:comment_id`.  Reading
`post.comments` of a missing post throws inside the `try`. -/
def removeComment (db : Db) (callerId : ObjectId) (post_id : ObjectId)
    (comment_id : ObjectId) : Response × Db :=
  match findById db.posts post_id with
  | none => (serverError, db)
  | some post =>
    match post.comments.find? (fun comment => comment._id == comment_id) with
    | none => (⟨404, Body.text "Comment not found"⟩, db)
    | some comment =>
      if comment.user ≠ callerId then (⟨401, Body.text "Not authorized"⟩, db)
      else
        let removeIndex := indexOf (post.comments.map (fun c => c._id)) comment_id
        let post := { post with comments := splice post.comments removeIndex 1 }
        (ok (Body.post post), { db with posts := save db.posts post })

/-- Handler `PUT api/posts/like/:id`.  Reading `post.likes` of a missing post
throws inside the `try`. -/
def likePost (env : Env) (db : Db) (callerId : ObjectId) (id : ObjectId) :
    Response × Db :=
  match findById db.posts id with
  | none => (serverError, db)
  | some post =>
    if (post.likes.filter (fun l => l.user == callerId)).length > 0 then
      (⟨400, Body.text "Post already liked"⟩, db)
    else
      let post := { post with likes := ({ _id := env.newId, user := callerId } : Like) :: post.likes }
      (ok (Body.post post), { db with posts := save db.posts post })

/-- Handler `PUT api/posts/unlike/:id`.  The removal index is looked up with
`req.params.id`, the identifier of the post. -/
def unlikePost (db : Db) (callerId : ObjectId) (id : ObjectId) : Response × Db :=
  match findById db.posts id with
  | none => (serverError, db)
  | some post =>
    if (post.likes.filter (fun l => l.user == callerId)).length = 0 then
      (⟨400, Body.text "Post has not yet been liked"⟩, db)
    else
      let removeIndex := indexOf (post.likes.map (fun l => l._id)) id
      let post := { post with likes := splice post.likes removeIndex 1 }
      (ok (Body.post post), { db with posts := save db.posts post })

/-! ## Sample data -/

def alice : User := ⟨"u1", "Alice", "alice@example.com", "h1", "a1"⟩
def bob : User := ⟨"u2", "Bob", "bob@example.com", "h2", "a2"⟩

/-- A post by Alice liked first by Bob and then by Alice. -/
def samplePost : Post :=
  { _id := "p1", user := "u1", text := "hello", name := "Alice", avatar := "a1",
    likes := [⟨"l2", "u1"⟩, ⟨"l1", "u2"⟩],
    comments := [⟨"c1", "u2", "hi", "Bob", "a2", 5⟩], date := 1 }

def sampleDb : Db := ⟨[alice, bob], [samplePost]⟩

/-- A post nobody but Bob has liked. -/
def likedByBob : Post :=
  { _id := "p1", user := "u1", text := "hello", name := "Alice", avatar := "a1",
    likes := [⟨"l1", "u2"⟩], comments := [], date := 1 }

/-- A post by Alice with three comments, newest first. -/
def threadPost : Post :=
  { _id := "p7", user := "u1", text := "thread", name := "Alice", avatar := "a1",
    likes := [⟨"l5", "u2"⟩],
    comments := [⟨"c3", "u2", "third", "Bob", "a2", 13⟩,
                 ⟨"c2", "u1", "second", "Alice", "a1", 12⟩,
                 ⟨"c1", "u2", "first", "Bob", "a2", 11⟩], date := 10 }

def threadDb : Db := ⟨[alice, bob], [samplePost, threadPost]⟩

/-! ## Dispatch and invariants -/

/-- The mutating requests the router of `post.js` accepts. -/
inductive Op where
  | createPost (callerId : ObjectId) (text : String)
  | deletePost (callerId : ObjectId) (id : ObjectId)
  | addComment (callerId : ObjectId) (id : ObjectId) (text : String)
  | removeComment (callerId : ObjectId) (post_id : ObjectId) (comment_id : ObjectId)
  | likePost (callerId : ObjectId) (id : ObjectId)
  | unlikePost (callerId : ObjectId) (id : ObjectId)
  deriving DecidableEq, Repr

/-- The router: one request is handled by the matching handler. -/
def step (env : Env) (db : Db) : Op → Response × Db
  | Op.createPost callerId text => createPost env db callerId text
  | Op.deletePost callerId id => deletePost db callerId id
  | Op.addComment callerId id text => addComment env db callerId id text
  | Op.removeComment callerId post_id comment_id => removeComment db callerId post_id comment_id
  | Op.likePost callerId id => likePost env db callerId id
  | Op.unlikePost callerId id => unlikePost db callerId id

/-- No two likes of a post carry the same user. -/
def LikesUnique (p : Post) : Prop :=
  (p.likes.map (fun l => l.user)).Nodup

instance (p : Post) : Decidable (LikesUnique p) := by
  unfold LikesUnique; infer_instance

/-- No two comments of a post carry the same identifier. -/
def CommentIdsUnique (p : Post) : Prop :=
  (p.comments.map (fun c => c._id)).Nodup

instance (p : Post) : Decidable (CommentIdsUnique p) := by
  unfold CommentIdsUnique; infer_instance

/-! ## Array primitives: basic facts -/

theorem indexOf_of_not_mem (xs : List String) (x : String) (h : x ∉ xs) :
    indexOf xs x = -1 := by
  induction xs with
  | nil => rfl
  | cons y ys ih =>
    have hy : ¬ y = x := fun e => h (by simp [e])
    have hys : x ∉ ys := fun e => h (by simp [e])
    simp [indexOf, hy, ih hys]

theorem indexOf_append_cons (pre : List String) (x : String) (suf : List String)
    (h : x ∉ pre) : indexOf (pre ++ x :: suf) x = (pre.length : Int) := by
  induction pre with
  | nil => simp [indexOf]
  | cons y ys ih =>
    have hy : ¬ y = x := fun e => h (by simp [e])
    have hys : x ∉ ys := fun e => h (by simp [e])
    have hnn : ¬ ((ys.length : Int) < 0) := by omega
    simp [indexOf, hy, ih hys, hnn]

theorem splice_length_append {α : Type} (pre : List α) (c : α) (suf : List α) :
    splice (pre ++ c :: suf) (pre.length : Int) 1 = pre ++ suf := by
  have hnn : ¬ ((pre.length : Int) < 0) := by omega
  have hmin : min (pre.length : Int) ((pre ++ c :: suf).length : Int) = (pre.length : Int) := by
    simp only [List.length_append, List.length_cons]; omega
  have hcount : min 1 ((pre ++ c :: suf).length - pre.length) = 1 := by
    simp only [List.length_append, List.length_cons]; omega
  simp only [splice, hnn, if_false, hmin, Int.toNat_ofNat, hcount]
  simp

theorem splice_neg_one {α : Type} (xs : List α) : splice xs (-1) 1 = xs.dropLast := by
  have hneg : ((-1 : Int) < 0) := by omega
  have hstart : (max ((xs.length : Int) + -1) 0).toNat = xs.length - 1 := by omega
  simp only [splice, hneg, if_true, hstart]
  rw [List.dropLast_eq_take]
  have hdrop : xs.drop (xs.length - 1 + min 1 (xs.length - (xs.length - 1))) = [] := by
    apply List.drop_eq_nil_of_le
    omega
  rw [hdrop, List.append_nil]

/-! ## Collection operations: basic facts -/

theorem findById_id {posts : List Post} {id : ObjectId} {p : Post}
    (h : findById posts id = some p) : p._id = id := by
  have := List.find?_some h
  simpa using this

theorem findById_mem {posts : List Post} {id : ObjectId} {p : Post}
    (h : findById posts id = some p) : p ∈ posts :=
  List.mem_of_find?_eq_some h

theorem findOne_id {users : List User} {id : ObjectId} {u : User}
    (h : findOne users id = some u) : u._id = id := by
  have := List.find?_some h
  simpa using this

theorem findById_save (posts : List Post) (id : ObjectId) (p q : Post)
    (h : findById posts id = some p) (hq : q._id = id) :
    findById (save posts q) id = some q := by
  induction posts with
  | nil => simp [findById] at h
  | cons r rs ih =>
    by_cases hr : r._id = id
    · simp [save, findById, hr, hq]
    · have hr2 : ¬ r._id = q._id := by rw [hq]; exact hr
      have h2 : findById rs id = some p := by
        simpa [findById, List.find?_cons, hr] using h
      have := ih h2
      simp only [findById] at this
      simp [save, findById, List.find?_cons, hr, hr2, this]

theorem findById_save_ne (posts : List Post) (id : ObjectId) (q : Post)
    (hq : q._id ≠ id) : findById (save posts q) id = findById posts id := by
  induction posts with
  | nil => simp [save]
  | cons r rs ih =>
    simp only [findById] at ih
    by_cases hr : r._id = q._id
    · have hr2 : ¬ r._id = id := by rw [hr]; exact hq
      simp [save, findById, List.find?_cons, hr, hr2, hq]
    · by_cases hr3 : r._id = id
      · simp only [save, hr, if_false]
        simp [findById, List.find?_cons, hr3]
      · simp only [save, hr, if_false]
        simp [findById, List.find?_cons, hr3, ih]

theorem mem_save {posts : List Post} {p q : Post} (h : q ∈ save posts p) :
    q = p ∨ q ∈ posts := by
  induction posts with
  | nil => simp [save] at h
  | cons r rs ih =>
    by_cases hr : r._id = p._id
    · simp only [save, hr, if_true, List.mem_cons] at h
      rcases h with h | h
      · exact Or.inl h
      · exact Or.inr (by simp [h])
    · simp only [save, hr, if_false, List.mem_cons] at h
      rcases h with h | h
      · exact Or.inr (by simp [h])
      · rcases ih h with h | h
        · exact Or.inl h
        · exact Or.inr (by simp [h])

theorem mem_remove {posts : List Post} {p q : Post} (h : q ∈ remove posts p) :
    q ∈ posts := by
  induction posts with
  | nil => simp [remove] at h
  | cons r rs ih =>
    by_cases hr : r._id = p._id
    · simp only [remove, hr, if_true] at h
      simp [h]
    · simp only [remove, hr, if_false, List.mem_cons] at h
      rcases h with h | h
      · simp [h]
      · simp [ih h]

theorem splice_sublist {α : Type} (xs : List α) (start : Int) (deleteCount : Nat) :
    (splice xs start deleteCount).Sublist xs := by
  simp only [splice]
  generalize (if start < 0 then (max ((xs.length : Int) + start) 0).toNat
    else (min start (xs.length : Int)).toNat) = a
  generalize min deleteCount (xs.length - a) = d
  have h1 : (xs.drop (a + d)).Sublist (xs.drop a) := by
    rw [← List.drop_drop]
    exact List.drop_sublist _ _
  have h2 := List.Sublist.append (List.Sublist.refl (xs.take a)) h1
  rwa [List.take_append_drop] at h2

theorem find?_comment_of_nodup (cs : List Comment) (c : Comment) (hc : c ∈ cs)
    (hn : (cs.map (fun x => x._id)).Nodup) :
    cs.find? (fun x => x._id == c._id) = some c := by
  induction cs with
  | nil => simp at hc
  | cons x xs ih =>
    by_cases hx : x = c
    · simp [hx]
    · have hmem : c ∈ xs := by
        rcases List.mem_cons.mp hc with h | h
        · exact absurd h.symm hx
        · exact h
      rw [List.map_cons, List.nodup_cons] at hn
      have hne : ¬ x._id = c._id := by
        intro e
        apply hn.1
        rw [e]
        exact List.mem_map_of_mem (fun x => x._id) hmem
      simp [List.find?_cons, hne, ih hmem hn.2]

/-! ## Creating and deleting posts -/

/-- C10: for a caller that resolves to a stored user and a non-empty text,
`createPost` answers with a post whose author is the caller, whose text is the
given text, whose name and avatar are those of the caller's user record, and
whose comments and likes are empty; that post is then found in the store. -/
theorem createPost_returns_fresh_post (env : Env) (db : Db) (callerId : ObjectId)
    (text : String) (user : User)
    (huser : findOne db.users callerId = some user) (htext : text ≠ "") :
    ∃ p : Post, (createPost env db callerId text).1 = ok (Body.post p) ∧
      p.user = callerId ∧ p.text = text ∧ p.name = user.name ∧
      p.avatar = user.avatar ∧ p.comments = [] ∧ p.likes = [] ∧
      p ∈ (createPost env db callerId text).2.posts := by
  refine ⟨{ _id := env.newId, user := user._id, text := text, name := user.name,
            avatar := user.avatar, likes := [], comments := [], date := env.now }, ?_⟩
  simp [createPost, validationResult, htext, huser, findOne_id huser, insert]

theorem createPost_returns_fresh_post_witness :
    findOne sampleDb.users "u2" = some bob ∧ "news" ≠ "" ∧
    ∃ p : Post, (createPost ⟨"p2", 7⟩ sampleDb "u2" "news").1 = ok (Body.post p) ∧
      p.user = "u2" ∧ p.text = "news" ∧ p.name = bob.name ∧
      p.avatar = bob.avatar ∧ p.comments = [] ∧ p.likes = [] ∧
      p ∈ (createPost ⟨"p2", 7⟩ sampleDb "u2" "news").2.posts :=
  ⟨by decide, by decide,
    createPost_returns_fresh_post ⟨"p2", 7⟩ sampleDb "u2" "news" bob (by decide) (by decide)⟩

/-- C6: `deletePost` by a caller other than the post's author answers
401 "Not authorized" and leaves the database as it was, so the post is still
stored with the same text, author, comments and likes. -/
theorem deletePost_not_author (db : Db) (callerId id : ObjectId) (post : Post)
    (hpost : findById db.posts id = some post) (hcaller : callerId ≠ post.user) :
    deletePost db callerId id = (⟨401, Body.text "Not authorized"⟩, db) ∧
      findById (deletePost db callerId id).2.posts id = some post := by
  have h : post.user ≠ callerId := fun e => hcaller e.symm
  simp [deletePost, hpost, h]

theorem deletePost_not_author_witness :
    findById sampleDb.posts "p1" = some samplePost ∧ "u2" ≠ samplePost.user ∧
    deletePost sampleDb "u2" "p1" = (⟨401, Body.text "Not authorized"⟩, sampleDb) ∧
      findById (deletePost sampleDb "u2" "p1").2.posts "p1" = some samplePost :=
  ⟨by decide, by decide,
    deletePost_not_author sampleDb "u2" "p1" samplePost (by decide) (by decide)⟩

/-! ## Likes -/

/-- C3: on a stored post, the second of two `likePost` calls in a row by the
same caller answers 400 "Post already liked" and saves nothing: the database,
and so the like list of the post, is what the first call left. -/
theorem likePost_twice (env1 env2 : Env) (db : Db) (callerId id : ObjectId)
    (post : Post) (hpost : findById db.posts id = some post) :
    (likePost env2 (likePost env1 db callerId id).2 callerId id).1
        = ⟨400, Body.text "Post already liked"⟩ ∧
      (likePost env2 (likePost env1 db callerId id).2 callerId id).2
        = (likePost env1 db callerId id).2 ∧
      ∃ p1 : Post, findById (likePost env1 db callerId id).2.posts id = some p1 ∧
        findById (likePost env2 (likePost env1 db callerId id).2 callerId id).2.posts id
          = some p1 ∧
        ∃ l ∈ p1.likes, l.user = callerId := by
  have hid := findById_id hpost
  by_cases hliked : (post.likes.filter (fun l => l.user == callerId)).length > 0
  · have h1 : likePost env1 db callerId id = (⟨400, Body.text "Post already liked"⟩, db) := by
      simp only [likePost, hpost, hliked, if_true]
    have h2 : likePost env2 db callerId id = (⟨400, Body.text "Post already liked"⟩, db) := by
      simp only [likePost, hpost, hliked, if_true]
    rw [h1]
    simp only [h2]
    refine ⟨trivial, trivial, post, hpost, hpost, ?_⟩
    obtain ⟨l, hl⟩ := List.exists_mem_of_length_pos hliked
    rw [List.mem_filter] at hl
    exact ⟨l, hl.1, by simpa using hl.2⟩
  · obtain ⟨p1, hp1⟩ : ∃ p1 : Post,
        p1 = { post with likes := ⟨env1.newId, callerId⟩ :: post.likes } := ⟨_, rfl⟩
    have h1 : likePost env1 db callerId id =
        (ok (Body.post p1), { db with posts := save db.posts p1 }) := by
      simp only [likePost, hpost, hliked, if_false, hp1]
    have hfind := findById_save db.posts id post p1 hpost (by rw [hp1]; exact hid)
    have hmem : (⟨env1.newId, callerId⟩ : Like) ∈ p1.likes := by rw [hp1]; simp
    have hpos : (p1.likes.filter (fun l => l.user == callerId)).length > 0 := by
      exact List.length_pos_of_mem (List.mem_filter.mpr ⟨hmem, by simp⟩)
    have h2 : likePost env2 { db with posts := save db.posts p1 } callerId id =
        (⟨400, Body.text "Post already liked"⟩, { db with posts := save db.posts p1 }) := by
      simp only [likePost, hfind, hpos, if_true]
    rw [h1]
    simp only [h2]
    exact ⟨trivial, trivial, p1, hfind, hfind, ⟨env1.newId, callerId⟩, hmem, rfl⟩

theorem likePost_twice_witness :
    findById [likedByBob] "p1" = some likedByBob ∧
    (likePost ⟨"l4", 9⟩ (likePost ⟨"l3", 8⟩ ⟨[alice, bob], [likedByBob]⟩ "u1" "p1").2 "u1" "p1").1
        = ⟨400, Body.text "Post already liked"⟩ ∧
      (likePost ⟨"l4", 9⟩ (likePost ⟨"l3", 8⟩ ⟨[alice, bob], [likedByBob]⟩ "u1" "p1").2 "u1" "p1").2
        = (likePost ⟨"l3", 8⟩ ⟨[alice, bob], [likedByBob]⟩ "u1" "p1").2 ∧
      ∃ p1 : Post,
        findById (likePost ⟨"l3", 8⟩ ⟨[alice, bob], [likedByBob]⟩ "u1" "p1").2.posts "p1"
          = some p1 ∧
        findById (likePost ⟨"l4", 9⟩
            (likePost ⟨"l3", 8⟩ ⟨[alice, bob], [likedByBob]⟩ "u1" "p1").2 "u1" "p1").2.posts "p1"
          = some p1 ∧
        ∃ l ∈ p1.likes, l.user = "u1" :=
  ⟨by decide,
    likePost_twice ⟨"l3", 8⟩ ⟨"l4", 9⟩ ⟨[alice, bob], [likedByBob]⟩ "u1" "p1" likedByBob
      (by decide)⟩

/-! ## Comments -/

/-- What `addComment` builds for a caller's user record. -/
theorem addComment_stored (env : Env) (db : Db) (callerId id : ObjectId) (text : String)
    (user : User) (post : Post)
    (huser : findOne db.users callerId = some user)
    (hpost : findById db.posts id = some post) (htext : text ≠ "") :
    addComment env db callerId id text =
      (ok (Body.post { post with comments :=
          ⟨env.newId, callerId, text, user.name, user.avatar, env.now⟩ :: post.comments }),
       { db with posts := save db.posts { post with comments :=
          ⟨env.newId, callerId, text, user.name, user.avatar, env.now⟩ :: post.comments } }) := by
  simp [addComment, validationResult, htext, huser, hpost, findOne_id huser]

/-- C5: on a stored post, two `addComment` calls in a row by stored users with
non-empty texts both succeed, and the post then holds the second comment, then
the first, then the comments it held before in their old order. -/
theorem addComment_twice_prepends (env1 env2 : Env) (db : Db)
    (caller1 caller2 id : ObjectId) (text1 text2 : String) (user1 user2 : User)
    (post : Post)
    (huser1 : findOne db.users caller1 = some user1)
    (huser2 : findOne db.users caller2 = some user2)
    (hpost : findById db.posts id = some post)
    (htext1 : text1 ≠ "") (htext2 : text2 ≠ "") :
    ∃ p1 p2 : Post,
      (addComment env1 db caller1 id text1).1 = ok (Body.post p1) ∧
      (addComment env2 (addComment env1 db caller1 id text1).2 caller2 id text2).1
        = ok (Body.post p2) ∧
      findById (addComment env2 (addComment env1 db caller1 id text1).2 caller2 id text2).2.posts
        id = some p2 ∧
      p1.comments =
        ⟨env1.newId, caller1, text1, user1.name, user1.avatar, env1.now⟩ :: post.comments ∧
      p2.comments =
        ⟨env2.newId, caller2, text2, user2.name, user2.avatar, env2.now⟩ ::
        ⟨env1.newId, caller1, text1, user1.name, user1.avatar, env1.now⟩ :: post.comments := by
  obtain ⟨c1, hc1⟩ : ∃ c : Comment,
      c = ⟨env1.newId, caller1, text1, user1.name, user1.avatar, env1.now⟩ := ⟨_, rfl⟩
  obtain ⟨c2, hc2⟩ : ∃ c : Comment,
      c = ⟨env2.newId, caller2, text2, user2.name, user2.avatar, env2.now⟩ := ⟨_, rfl⟩
  obtain ⟨p1, hp1⟩ : ∃ p : Post, p = { post with comments := c1 :: post.comments } := ⟨_, rfl⟩
  obtain ⟨p2, hp2⟩ : ∃ p : Post, p = { p1 with comments := c2 :: p1.comments } := ⟨_, rfl⟩
  have hid := findById_id hpost
  have h1 : addComment env1 db caller1 id text1 =
      (ok (Body.post p1), { db with posts := save db.posts p1 }) := by
    rw [addComment_stored env1 db caller1 id text1 user1 post huser1 hpost htext1, hp1, hc1]
  have hfind1 : findById (save db.posts p1) id = some p1 :=
    findById_save db.posts id post p1 hpost (by rw [hp1]; exact hid)
  have h2 : addComment env2 { db with posts := save db.posts p1 } caller2 id text2 =
      (ok (Body.post p2),
       { db with posts := save (save db.posts p1) p2 }) := by
    rw [addComment_stored env2 { db with posts := save db.posts p1 } caller2 id text2 user2 p1
      huser2 hfind1 htext2, hp2, hc2]
  have hfind2 : findById (save (save db.posts p1) p2) id = some p2 :=
    findById_save _ id p1 p2 hfind1 (by rw [hp2, hp1]; exact hid)
  refine ⟨p1, p2, ?_, ?_, ?_, ?_, ?_⟩
  · rw [h1]
  · rw [h1]; simp only [h2]
  · rw [h1]; simp only [h2]; exact hfind2
  · rw [hp1, hc1]
  · rw [hp2, hp1, hc2, hc1]

theorem addComment_twice_prepends_witness :
    findOne sampleDb.users "u1" = some alice ∧ findOne sampleDb.users "u2" = some bob ∧
    findById sampleDb.posts "p1" = some samplePost ∧ "thanks" ≠ "" ∧ "bye" ≠ "" ∧
    ∃ p1 p2 : Post,
      (addComment ⟨"c2", 6⟩ sampleDb "u1" "p1" "thanks").1 = ok (Body.post p1) ∧
      (addComment ⟨"c3", 7⟩ (addComment ⟨"c2", 6⟩ sampleDb "u1" "p1" "thanks").2
          "u2" "p1" "bye").1 = ok (Body.post p2) ∧
      findById (addComment ⟨"c3", 7⟩ (addComment ⟨"c2", 6⟩ sampleDb "u1" "p1" "thanks").2
          "u2" "p1" "bye").2.posts "p1" = some p2 ∧
      p1.comments =
        ⟨"c2", "u1", "thanks", alice.name, alice.avatar, 6⟩ :: samplePost.comments ∧
      p2.comments =
        ⟨"c3", "u2", "bye", bob.name, bob.avatar, 7⟩ ::
        ⟨"c2", "u1", "thanks", alice.name, alice.avatar, 6⟩ :: samplePost.comments :=
  ⟨by decide, by decide, by decide, by decide, by decide,
    addComment_twice_prepends ⟨"c2", 6⟩ ⟨"c3", 7⟩ sampleDb "u1" "u2" "p1" "thanks" "bye"
      alice bob samplePost (by decide) (by decide) (by decide) (by decide) (by decide)⟩

/-- Distinct comment identifiers are kept by every request, as long as the
identifier the runtime hands out is not one already carried by a comment. -/
theorem commentIdsUnique_preserved (env : Env) (db : Db) (op : Op)
    (hfresh : ∀ p ∈ db.posts, ∀ c ∈ p.comments, c._id ≠ env.newId)
    (hinv : ∀ p ∈ db.posts, CommentIdsUnique p) :
    ∀ p ∈ (step env db op).2.posts, CommentIdsUnique p := by
  intro p hp
  cases op with
  | createPost callerId text =>
    simp only [step, createPost] at hp
    split at hp
    · exact hinv p hp
    · split at hp
      · exact hinv p hp
      · simp only [insert, List.mem_append, List.mem_singleton] at hp
        rcases hp with hp | hp
        · exact hinv p hp
        · rw [hp]; simp [CommentIdsUnique]
  | deletePost callerId id =>
    simp only [step, deletePost] at hp
    split at hp
    · exact hinv p hp
    · split at hp
      · exact hinv p hp
      · exact hinv p (mem_remove hp)
  | addComment callerId id text =>
    simp only [step, addComment] at hp
    split at hp
    · exact hinv p hp
    · split at hp
      · exact hinv p hp
      · split at hp
        · exact hinv p hp
        · rename_i post hpost
          rcases mem_save hp with hp | hp
          · rw [hp]
            have hpinv := hinv post (findById_mem hpost)
            unfold CommentIdsUnique at *
            simp only [List.map_cons, List.nodup_cons]
            refine ⟨?_, hpinv⟩
            intro hmem
            obtain ⟨c, hc, e⟩ := List.mem_map.mp hmem
            exact hfresh post (findById_mem hpost) c hc e
          · exact hinv p hp
  | removeComment callerId post_id comment_id =>
    simp only [step, removeComment] at hp
    split at hp
    · exact hinv p hp
    · split at hp
      · exact hinv p hp
      · split at hp
        · exact hinv p hp
        · rename_i post hpost _ _ _ _
          rcases mem_save hp with hp | hp
          · rw [hp]
            have hpinv := hinv post (findById_mem hpost)
            unfold CommentIdsUnique at *
            exact List.Nodup.sublist ((splice_sublist post.comments _ 1).map _) hpinv
          · exact hinv p hp
  | likePost callerId id =>
    simp only [step, likePost] at hp
    split at hp
    · exact hinv p hp
    · split at hp
      · exact hinv p hp
      · rename_i post hpost _
        rcases mem_save hp with hp | hp
        · rw [hp]
          exact hinv post (findById_mem hpost)
        · exact hinv p hp
  | unlikePost callerId id =>
    simp only [step, unlikePost] at hp
    split at hp
    · exact hinv p hp
    · split at hp
      · exact hinv p hp
      · rename_i post hpost _
        rcases mem_save hp with hp | hp
        · rw [hp]
          exact hinv post (findById_mem hpost)
        · exact hinv p hp

/-- C7: on a stored post whose comments have distinct identifiers,
`removeComment` aimed at a comment by a caller other than that comment's author
answers 401 "Not authorized" and leaves the database, and so the comments of the
post, as they were; nothing is asked of the post's author, who is refused like
anyone else. -/
theorem removeComment_not_author (db : Db) (callerId post_id : ObjectId) (post : Post)
    (c : Comment)
    (hpost : findById db.posts post_id = some post)
    (hids : CommentIdsUnique post)
    (hc : c ∈ post.comments) (hcaller : callerId ≠ c.user) :
    removeComment db callerId post_id c._id = (⟨401, Body.text "Not authorized"⟩, db) ∧
      findById (removeComment db callerId post_id c._id).2.posts post_id = some post := by
  have hfind := find?_comment_of_nodup post.comments c hc hids
  have h : c.user ≠ callerId := fun e => hcaller e.symm
  simp [removeComment, hpost, hfind, h]

theorem removeComment_not_author_witness :
    findById sampleDb.posts "p1" = some samplePost ∧ CommentIdsUnique samplePost ∧
    (⟨"c1", "u2", "hi", "Bob", "a2", 5⟩ : Comment) ∈ samplePost.comments ∧
    samplePost.user = "u1" ∧
    removeComment sampleDb "u1" "p1" "c1" = (⟨401, Body.text "Not authorized"⟩, sampleDb) ∧
      findById (removeComment sampleDb "u1" "p1" "c1").2.posts "p1" = some samplePost :=
  ⟨by decide, by decide, by decide, rfl,
    removeComment_not_author sampleDb "u1" "p1" samplePost
      ⟨"c1", "u2", "hi", "Bob", "a2", 5⟩ (by decide) (by decide) (by decide) (by decide)⟩

/-- C8: on a stored post whose comments have distinct identifiers,
`removeComment` by the author of one of its comments succeeds and stores the
post with exactly that comment taken out: the comments before it and after it
are kept in their order, none of them carries the removed identifier, and the
likes are untouched. -/
theorem removeComment_removes (db : Db) (callerId post_id : ObjectId) (post : Post)
    (c : Comment)
    (hpost : findById db.posts post_id = some post)
    (hids : CommentIdsUnique post)
    (hc : c ∈ post.comments) (hcaller : c.user = callerId) :
    ∃ (pre suf : List Comment) (p1 : Post),
      post.comments = pre ++ c :: suf ∧
      (∀ x ∈ pre ++ suf, x._id ≠ c._id) ∧
      (removeComment db callerId post_id c._id).1 = ok (Body.post p1) ∧
      findById (removeComment db callerId post_id c._id).2.posts post_id = some p1 ∧
      p1.comments = pre ++ suf ∧
      p1.comments = post.comments.filter (fun x => x._id != c._id) ∧
      p1.likes = post.likes ∧
      p1 = { post with comments := pre ++ suf } := by
  obtain ⟨pre, suf, hsplit⟩ := List.append_of_mem hc
  have hn : ((pre ++ c :: suf).map (fun x => x._id)).Nodup := by
    rw [← hsplit]; exact hids
  rw [List.map_append, List.map_cons] at hn
  have hpre : ∀ x ∈ pre, x._id ≠ c._id := by
    intro x hx e
    have hdisj := (List.nodup_append.mp hn).2.2
    exact hdisj (List.mem_map_of_mem (fun x => x._id) hx) (by rw [e]; simp)
  have hsuf : ∀ x ∈ suf, x._id ≠ c._id := by
    intro x hx e
    have hcons := (List.nodup_append.mp hn).2.1
    rw [List.nodup_cons] at hcons
    apply hcons.1
    rw [← e]
    exact List.mem_map_of_mem (fun x => x._id) hx
  have hall : ∀ x ∈ pre ++ suf, x._id ≠ c._id := by
    intro x hx
    rcases List.mem_append.mp hx with h | h
    · exact hpre x h
    · exact hsuf x h
  have hnotin : c._id ∉ pre.map (fun x => x._id) := by
    intro h
    obtain ⟨x, hx, e⟩ := List.mem_map.mp h
    exact hpre x hx e
  have hidx : indexOf (post.comments.map (fun x => x._id)) c._id = (pre.length : Int) := by
    rw [hsplit, List.map_append, List.map_cons]
    have := indexOf_append_cons (pre.map (fun x => x._id)) c._id
      (suf.map (fun x => x._id)) hnotin
    simpa using this
  have hsplice : splice post.comments (pre.length : Int) 1 = pre ++ suf := by
    rw [hsplit]; exact splice_length_append pre c suf
  have hfind := find?_comment_of_nodup post.comments c hc hids
  have hnot : ¬ c.user ≠ callerId := fun h => h hcaller
  have hrun : removeComment db callerId post_id c._id =
      (ok (Body.post { post with comments := pre ++ suf }),
       { db with posts := save db.posts { post with comments := pre ++ suf } }) := by
    simp only [removeComment, hpost, hfind, hnot, if_false, hidx, hsplice]
  have hfilter : pre ++ suf = post.comments.filter (fun x => x._id != c._id) := by
    rw [hsplit, List.filter_append, List.filter_cons]
    have h1 : pre.filter (fun x => x._id != c._id) = pre :=
      List.filter_eq_self.mpr (fun x hx => by simpa using hpre x hx)
    have h2 : suf.filter (fun x => x._id != c._id) = suf :=
      List.filter_eq_self.mpr (fun x hx => by simpa using hsuf x hx)
    simp [h1, h2]
  refine ⟨pre, suf, { post with comments := pre ++ suf }, hsplit, hall, ?_, ?_, rfl, hfilter,
    rfl, rfl⟩
  · rw [hrun]
  · rw [hrun]
    have hid : post._id = post_id := findById_id hpost
    exact findById_save db.posts post_id post _ hpost hid

theorem removeComment_removes_witness :
    findById threadDb.posts "p7" = some threadPost ∧ CommentIdsUnique threadPost ∧
    (⟨"c2", "u1", "second", "Alice", "a1", 12⟩ : Comment) ∈ threadPost.comments ∧
    ∃ (pre suf : List Comment) (p1 : Post),
      threadPost.comments = pre ++ ⟨"c2", "u1", "second", "Alice", "a1", 12⟩ :: suf ∧
      (∀ x ∈ pre ++ suf, x._id ≠ "c2") ∧
      (removeComment threadDb "u1" "p7" "c2").1 = ok (Body.post p1) ∧
      findById (removeComment threadDb "u1" "p7" "c2").2.posts "p7" = some p1 ∧
      p1.comments = pre ++ suf ∧
      p1.comments = threadPost.comments.filter (fun x => x._id != "c2") ∧
      p1.likes = threadPost.likes ∧
      p1 = { threadPost with comments := pre ++ suf } :=
  ⟨by decide, by decide, by decide,
    removeComment_removes threadDb "u1" "p7" threadPost
      ⟨"c2", "u1", "second", "Alice", "a1", 12⟩ (by decide) (by decide) (by decide)
      (by decide)⟩

/-! ## The like list as a set of users -/

theorem likesUnique_cons (post : Post) (newId callerId : ObjectId)
    (hinv : LikesUnique post)
    (hnew : ¬ (post.likes.filter (fun l => l.user == callerId)).length > 0) :
    LikesUnique { post with likes := ⟨newId, callerId⟩ :: post.likes } := by
  unfold LikesUnique at *
  simp only [List.map_cons, List.nodup_cons]
  refine ⟨?_, hinv⟩
  intro hmem
  obtain ⟨l, hl, e⟩ := List.mem_map.mp hmem
  apply hnew
  exact List.length_pos_of_mem (List.mem_filter.mpr ⟨hl, by simp [e]⟩)

theorem likesUnique_splice (post : Post) (start : Int) (hinv : LikesUnique post) :
    LikesUnique { post with likes := splice post.likes start 1 } := by
  unfold LikesUnique at *
  exact List.Nodup.sublist ((splice_sublist post.likes start 1).map _) hinv

/-- C4: if no stored post has two likes by the same user, then after any one of
`createPost`, `deletePost`, `addComment`, `removeComment`, `likePost` and
`unlikePost` no stored post has; and a post that `createPost` answers with has
no two likes by the same user. -/
theorem likesUnique_preserved (env : Env) (db : Db) (op : Op)
    (hinv : ∀ p ∈ db.posts, LikesUnique p) :
    (∀ p ∈ (step env db op).2.posts, LikesUnique p) ∧
      (∀ (callerId : ObjectId) (text : String) (p : Post),
        (createPost env db callerId text).1 = ok (Body.post p) → LikesUnique p) := by
  have hcreate : ∀ (callerId : ObjectId) (text : String) (p : Post),
      (createPost env db callerId text).1 = ok (Body.post p) → LikesUnique p := by
    intro callerId text p h
    simp only [createPost] at h
    split at h
    · simp [ok] at h
    · split at h
      · simp [ok, serverError] at h
      · simp only [ok, Response.mk.injEq, Body.post.injEq, true_and] at h
        rw [← h]
        simp [LikesUnique]
  refine ⟨?_, hcreate⟩
  intro p hp
  cases op with
  | createPost callerId text =>
    simp only [step, createPost] at hp
    split at hp
    · exact hinv p hp
    · split at hp
      · exact hinv p hp
      · simp only [insert, List.mem_append, List.mem_singleton] at hp
        rcases hp with hp | hp
        · exact hinv p hp
        · rw [hp]; simp [LikesUnique]
  | deletePost callerId id =>
    simp only [step, deletePost] at hp
    split at hp
    · exact hinv p hp
    · split at hp
      · exact hinv p hp
      · exact hinv p (mem_remove hp)
  | addComment callerId id text =>
    simp only [step, addComment] at hp
    split at hp
    · exact hinv p hp
    · split at hp
      · exact hinv p hp
      · split at hp
        · exact hinv p hp
        · rename_i post hpost
          rcases mem_save hp with hp | hp
          · rw [hp]
            exact hinv post (findById_mem hpost)
          · exact hinv p hp
  | removeComment callerId post_id comment_id =>
    simp only [step, removeComment] at hp
    split at hp
    · exact hinv p hp
    · split at hp
      · exact hinv p hp
      · split at hp
        · exact hinv p hp
        · rename_i post hpost _ _ _ _
          rcases mem_save hp with hp | hp
          · rw [hp]
            exact hinv post (findById_mem hpost)
          · exact hinv p hp
  | likePost callerId id =>
    simp only [step, likePost] at hp
    split at hp
    · exact hinv p hp
    · split at hp
      · exact hinv p hp
      · rename_i post hpost hnew
        rcases mem_save hp with hp | hp
        · rw [hp]
          exact likesUnique_cons post env.newId callerId (hinv post (findById_mem hpost)) hnew
        · exact hinv p hp
  | unlikePost callerId id =>
    simp only [step, unlikePost] at hp
    split at hp
    · exact hinv p hp
    · split at hp
      · exact hinv p hp
      · rename_i post hpost _
        rcases mem_save hp with hp | hp
        · rw [hp]
          exact likesUnique_splice post _ (hinv post (findById_mem hpost))
        · exact hinv p hp

theorem likesUnique_preserved_witness :
    (∀ p ∈ sampleDb.posts, LikesUnique p) ∧
    (∀ p ∈ (step ⟨"l9", 20⟩ sampleDb (Op.unlikePost "u1" "p1")).2.posts, LikesUnique p) ∧
      (∀ (callerId : ObjectId) (text : String) (p : Post),
        (createPost ⟨"l9", 20⟩ sampleDb callerId text).1 = ok (Body.post p) → LikesUnique p) :=
  ⟨by decide, likesUnique_preserved ⟨"l9", 20⟩ sampleDb (Op.unlikePost "u1" "p1") (by decide)⟩

/-! ## The removal index of `unlikePost` -/

/-- When no like of the post carries the identifier of the post, `indexOf`
answers `-1` and `splice(-1, 1)` takes out the last like of the list, whoever
made it. -/
theorem unlikePost_removes_last (db : Db) (callerId id : ObjectId) (post : Post)
    (hpost : findById db.posts id = some post)
    (hliked : (post.likes.filter (fun l => l.user == callerId)).length ≠ 0)
    (hid : id ∉ post.likes.map (fun l => l._id)) :
    unlikePost db callerId id =
      (ok (Body.post { post with likes := post.likes.dropLast }),
       { db with posts := save db.posts { post with likes := post.likes.dropLast } }) := by
  simp only [unlikePost, hpost, hliked, if_false, indexOf_of_not_mem _ _ hid, splice_neg_one]

/-- C1, the handler on a post liked by Bob and then by Alice: Alice's
`unlikePost` succeeds, the like list that is stored still holds Alice's like,
and Bob's like is the one that is gone. -/
theorem unlikePost_keeps_caller_like :
    samplePost.likes = [⟨"l2", "u1"⟩, ⟨"l1", "u2"⟩] ∧
    findById sampleDb.posts "p1" = some samplePost ∧
    (unlikePost sampleDb "u1" "p1").1
      = ok (Body.post { samplePost with likes := [⟨"l2", "u1"⟩] }) ∧
    findById (unlikePost sampleDb "u1" "p1").2.posts "p1"
      = some { samplePost with likes := [⟨"l2", "u1"⟩] } := by
  decide

/-- C2, the handlers on a post that only Bob has liked: Alice's `likePost`
followed by her `unlikePost` both succeed and leave the like list holding
Alice's like alone, not Bob's like as before. -/
theorem likePost_unlikePost_not_restored :
    likedByBob.likes = [⟨"l1", "u2"⟩] ∧
    (likePost ⟨"l3", 8⟩ ⟨[alice, bob], [likedByBob]⟩ "u1" "p1").1
      = ok (Body.post { likedByBob with likes := [⟨"l3", "u1"⟩, ⟨"l1", "u2"⟩] }) ∧
    (unlikePost (likePost ⟨"l3", 8⟩ ⟨[alice, bob], [likedByBob]⟩ "u1" "p1").2 "u1" "p1").1
      = ok (Body.post { likedByBob with likes := [⟨"l3", "u1"⟩] }) ∧
    findById
        (unlikePost (likePost ⟨"l3", 8⟩ ⟨[alice, bob], [likedByBob]⟩ "u1" "p1").2
          "u1" "p1").2.posts "p1"
      = some { likedByBob with likes := [⟨"l3", "u1"⟩] } := by
  decide

/-! ## Requests for a post that is not stored -/

/-- With no post stored under `id`, the comment and like handlers reach the
`catch` branch. -/
theorem absent_post_serverError (env : Env) (db : Db) (callerId id : ObjectId)
    (text : String) (comment_id : ObjectId) (user : User)
    (huser : findOne db.users callerId = some user) (htext : text ≠ "")
    (habsent : findById db.posts id = none) :
    addComment env db callerId id text = (serverError, db) ∧
      removeComment db callerId id comment_id = (serverError, db) ∧
      likePost env db callerId id = (serverError, db) ∧
      unlikePost db callerId id = (serverError, db) := by
  simp [addComment, removeComment, likePost, unlikePost, validationResult, htext, huser,
    habsent]

/-- C9, the handlers on an identifier under which nothing is stored: the
database is left as it was, but `addComment`, `removeComment`, `likePost`
and `unlikePost` each answer 500 "Server Error", where `getPost` and
`deletePost` answer 404 "Post not found". -/
theorem absent_post_answers_500 :
    findById sampleDb.posts "p9" = none ∧
    addComment ⟨"c9", 30⟩ sampleDb "u1" "p9" "hi" = (⟨500, Body.text "Server Error"⟩, sampleDb) ∧
    removeComment sampleDb "u1" "p9" "c1" = (⟨500, Body.text "Server Error"⟩, sampleDb) ∧
    likePost ⟨"l9", 30⟩ sampleDb "u1" "p9" = (⟨500, Body.text "Server Error"⟩, sampleDb) ∧
    unlikePost sampleDb "u1" "p9" = (⟨500, Body.text "Server Error"⟩, sampleDb) ∧
    getPost sampleDb "p9" = (⟨404, Body.text "Post not found"⟩, sampleDb) ∧
    deletePost sampleDb "u1" "p9" = (⟨404, Body.text "Post not found"⟩, sampleDb) := by
  decide

end DevConnect
